import Mathlib

/-!
Verification development for the btrfs user-space library: a shallow
embedding of the metadata-tree search cursor, the record decoder, the
hierarchy builder and resolver, and the ioctl facade functions, with
theorems checking the design document's properties against them.
-/

namespace Btrfs

/-- The number of values of a 64-bit unsigned integer. -/
def U64 : Nat := 2 ^ 64

/-- The number of values of an 8-bit unsigned integer. -/
def U8 : Nat := 2 ^ 8

/-- A search key: the `(object_id, item_type, offset)` triple that orders
the metadata B-tree.  Fields are machine integers (u64, u8, u64) modelled
as `Nat` with explicit bounds in `SearchKey.Valid`. -/
structure SearchKey where
  objectid : Nat
  itemType : Nat
  offset : Nat
deriving DecidableEq

/-- A key is valid when each field fits its machine width. -/
def SearchKey.Valid (k : SearchKey) : Prop :=
  k.objectid < U64 ∧ k.itemType < U8 ∧ k.offset < U64

instance (k : SearchKey) : Decidable k.Valid := by
  unfold SearchKey.Valid; infer_instance

/-- Flattening of a key into a single natural number; for valid keys this
is an order isomorphism onto an initial segment of `Nat`. -/
def SearchKey.idx (k : SearchKey) : Nat :=
  (k.objectid * U8 + k.itemType) * U64 + k.offset

/-- Total size of the valid key space. -/
def KEYSPACE : Nat := U64 * U8 * U64

/-- Strict lexicographic order on keys by `(object_id, item_type, offset)`,
the order in which the tree returns items. -/
def SearchKey.ltb (a b : SearchKey) : Bool :=
  decide (a.objectid < b.objectid) ||
    (decide (a.objectid = b.objectid) &&
      (decide (a.itemType < b.itemType) ||
        (decide (a.itemType = b.itemType) && decide (a.offset < b.offset))))

/-- Reflexive lexicographic order on keys. -/
def SearchKey.leb (a b : SearchKey) : Bool :=
  decide (a = b) || SearchKey.ltb a b

theorem SearchKey.idx_lt_keyspace {k : SearchKey} (h : k.Valid) :
    k.idx < KEYSPACE := by
  obtain ⟨h1, h2, h3⟩ := h
  unfold SearchKey.idx KEYSPACE
  unfold U64 U8 at *
  nlinarith

theorem SearchKey.ltb_iff_idx {a b : SearchKey} (ha : a.Valid) (hb : b.Valid) :
    SearchKey.ltb a b = true ↔ a.idx < b.idx := by
  obtain ⟨ha1, ha2, ha3⟩ := ha
  obtain ⟨hb1, hb2, hb3⟩ := hb
  unfold SearchKey.ltb SearchKey.idx
  unfold U64 U8 at *
  simp only [Bool.or_eq_true, Bool.and_eq_true, decide_eq_true_eq]
  omega

theorem SearchKey.leb_iff_idx {a b : SearchKey} (ha : a.Valid) (hb : b.Valid) :
    SearchKey.leb a b = true ↔ a.idx ≤ b.idx := by
  obtain ⟨ao, ai, af⟩ := a
  obtain ⟨bo, bi, bf⟩ := b
  obtain ⟨ha1, ha2, ha3⟩ := ha
  obtain ⟨hb1, hb2, hb3⟩ := hb
  unfold SearchKey.leb SearchKey.ltb SearchKey.idx
  unfold U64 U8 at *
  simp only [Bool.or_eq_true, Bool.and_eq_true, decide_eq_true_eq,
    SearchKey.mk.injEq] at *
  omega

/-- Modelled from the spec: the cursor computes the next start key as one
past the last key returned — object id unchanged, type unchanged, offset
plus one within the same item; if the offset overflows its 64-bit width,
advance the item type; if the type overflows its 8-bit width, advance the
object id (modulo its 64-bit width). -/
def succKey (k : SearchKey) : SearchKey :=
  if k.offset + 1 < U64 then
    { k with offset := k.offset + 1 }
  else if k.itemType + 1 < U8 then
    { objectid := k.objectid, itemType := k.itemType + 1, offset := 0 }
  else
    { objectid := (k.objectid + 1) % U64, itemType := 0, offset := 0 }

theorem succKey_valid {k : SearchKey} (h : k.Valid) : (succKey k).Valid := by
  obtain ⟨h1, h2, h3⟩ := h
  unfold succKey SearchKey.Valid
  unfold U64 U8 at *
  split
  · simp only; omega
  · split
    · simp only; omega
    · simp only
      refine ⟨Nat.mod_lt _ (by norm_num), by norm_num, by norm_num⟩

theorem succKey_idx {k : SearchKey} (h : k.Valid) (hmax : k.idx + 1 < KEYSPACE) :
    (succKey k).idx = k.idx + 1 := by
  obtain ⟨h1, h2, h3⟩ := h
  unfold succKey SearchKey.idx KEYSPACE at *
  unfold U64 U8 at *
  split
  · simp only; omega
  · split
    · simp only; omega
    · simp only
      have ho : k.objectid + 1 < 2 ^ 64 := by nlinarith
      rw [Nat.mod_eq_of_lt ho]
      omega

/-- One raw item returned by a scan: its originating key triple, a
transaction id, and an opaque byte payload. -/
structure RawItem where
  key : SearchKey
  transid : Nat
  data : List Nat
deriving DecidableEq

/-- Modelled from the spec: one bounded call of the tree-search
collaborator (the generic search ioctl is not under `src/`).  The tree
state is the ordered list of its items; a call returns the items whose key
is at least `start` — the scan is inclusive of the start key — in tree
order, at most `budget` of them (as many as fit in the buffer). -/
def scanCall (tree : List RawItem) (start : SearchKey) (budget : Nat) : List RawItem :=
  (tree.filter fun it => SearchKey.leb start it.key).take budget

/-- Modelled from the spec: a single unbounded call — every item at or
after `start`, in tree order. -/
def scanUnbounded (tree : List RawItem) (start : SearchKey) : List RawItem :=
  tree.filter fun it => SearchKey.leb start it.key

/-- Modelled from the spec: the cursor protocol (not under `src/`).
Issues bounded calls, computing each next start key as one past the last
key returned (`succKey`), and stops when a call returns zero items.
`fuel` bounds the number of calls; the theorems supply enough of it. -/
def cursorScan (tree : List RawItem) (budget : Nat) : Nat → SearchKey → List RawItem
  | 0, _ => []
  | fuel + 1, start =>
    match (scanCall tree start budget).getLast? with
    | none => []
    | some la => scanCall tree start budget ++ cursorScan tree budget fuel (succKey la.key)

/-- A well-formed tree snapshot: items in strictly ascending key order
(the order the tree guarantees), every key a valid machine triple, and no
item at the very last representable key. -/
def TreeWF (tree : List RawItem) : Prop :=
  tree.Pairwise (fun x y => SearchKey.ltb x.key y.key = true) ∧
    ∀ it ∈ tree, it.key.Valid ∧ it.key.idx + 1 < KEYSPACE

instance (tree : List RawItem) : Decidable (TreeWF tree) := by
  unfold TreeWF; infer_instance

theorem TreeWF.pairwise_idx {tree : List RawItem} (h : TreeWF tree) :
    tree.Pairwise (fun x y => x.key.idx < y.key.idx) :=
  List.Pairwise.imp_of_mem
    (fun ha hb hr => (SearchKey.ltb_iff_idx (h.2 _ ha).1 (h.2 _ hb).1).mp hr) h.1

theorem scanCall_eq_take (tree : List RawItem) (start : SearchKey) (budget : Nat) :
    scanCall tree start budget = (scanUnbounded tree start).take budget := rfl

theorem eq_nil_of_take_eq_nil {α : Type} {l : List α} {n : Nat}
    (hn : n ≠ 0) (h : l.take n = []) : l = [] := by
  cases l with
  | nil => rfl
  | cons a l =>
    cases n with
    | zero => exact absurd rfl hn
    | succ m => simp [List.take] at h

theorem le_getLast?_of_pairwise {α : Type} (f : α → Nat) :
    ∀ (c : List α), c.Pairwise (fun x y => f x < f y) → ∀ la, c.getLast? = some la →
      ∀ x ∈ c, f x ≤ f la := by
  intro c
  induction c with
  | nil => intro _ la hla; simp at hla
  | cons a c ih =>
    intro hp la hla x hx
    cases c with
    | nil =>
      simp at hla hx
      subst hla; subst hx
      exact Nat.le_refl _
    | cons b c =>
      rw [List.getLast?_cons_cons] at hla
      rcases List.mem_cons.mp hx with rfl | hx2
      · have hmem : la ∈ b :: c := List.mem_of_mem_getLast? hla
        exact Nat.le_of_lt (List.rel_of_pairwise_cons hp hmem)
      · exact ih (List.pairwise_cons.mp hp).2 la hla x hx2

/-- Advancing the cursor to one past the last returned key drops exactly
the returned chunk from the remaining range: the heart of the
no-duplicates / no-gaps argument. -/
theorem scanUnbounded_succKey (tree : List RawItem) (hwf : TreeWF tree)
    (start : SearchKey) (hstart : start.Valid) (budget : Nat) (la : RawItem)
    (hla : (scanCall tree start budget).getLast? = some la) :
    scanUnbounded tree (succKey la.key) = (scanUnbounded tree start).drop budget := by
  have hl_sub : List.Sublist (scanUnbounded tree start) tree := List.filter_sublist tree
  have hl_pw : (scanUnbounded tree start).Pairwise (fun x y => x.key.idx < y.key.idx) :=
    hwf.pairwise_idx.sublist hl_sub
  have hchunk_sub : List.Sublist (scanCall tree start budget) (scanUnbounded tree start) := by
    rw [scanCall_eq_take]; exact List.take_sublist _ _
  have hla_mem_chunk : la ∈ scanCall tree start budget := List.mem_of_mem_getLast? hla
  have hla_mem_l : la ∈ scanUnbounded tree start := hchunk_sub.subset hla_mem_chunk
  have hla_mem_tree : la ∈ tree := hl_sub.subset hla_mem_l
  obtain ⟨hla_valid, hla_max⟩ := hwf.2 la hla_mem_tree
  have hsucc_valid : (succKey la.key).Valid := succKey_valid hla_valid
  have hsucc_idx : (succKey la.key).idx = la.key.idx + 1 := succKey_idx hla_valid hla_max
  have hstart_la : start.idx ≤ la.key.idx := by
    have := List.of_mem_filter hla_mem_l
    exact (SearchKey.leb_iff_idx hstart hla_valid).mp this
  -- every element of the returned chunk is at or before the last key
  have hA : ∀ x ∈ scanCall tree start budget, x.key.idx ≤ la.key.idx := by
    intro x hx
    exact le_getLast?_of_pairwise (fun it => it.key.idx) _
      (hl_pw.sublist (by rw [scanCall_eq_take] at hchunk_sub ⊢; exact hchunk_sub))
      la hla x hx
  -- every element past the chunk is strictly after the last key
  have hB : ∀ x ∈ (scanUnbounded tree start).drop budget, la.key.idx < x.key.idx := by
    intro x hx
    have hpw2 : ((scanUnbounded tree start).take budget ++
        (scanUnbounded tree start).drop budget).Pairwise
        (fun x y => x.key.idx < y.key.idx) := by
      rw [List.take_append_drop]; exact hl_pw
    have := (List.pairwise_append.mp hpw2).2.2
    rw [scanCall_eq_take] at hla_mem_chunk
    exact this la hla_mem_chunk x hx
  -- the filter for the advanced key over the whole tree equals the filter
  -- over the remaining range
  have step1 : scanUnbounded tree (succKey la.key) =
      (scanUnbounded tree start).filter fun it => SearchKey.leb (succKey la.key) it.key := by
    unfold scanUnbounded
    rw [List.filter_filter]
    refine (List.filter_congr ?_).symm
    intro a ha
    cases hP : SearchKey.leb (succKey la.key) a.key with
    | false => simp [hP]
    | true =>
      have ha_valid := (hwf.2 a ha).1
      have hidx : (succKey la.key).idx ≤ a.key.idx :=
        (SearchKey.leb_iff_idx hsucc_valid ha_valid).mp hP
      have hPa : SearchKey.leb start a.key = true := by
        rw [SearchKey.leb_iff_idx hstart ha_valid]
        omega
      simp [hP, hPa]
  rw [step1]
  conv_lhs => rw [← List.take_append_drop budget (scanUnbounded tree start)]
  rw [List.filter_append]
  have hnil : ((scanUnbounded tree start).take budget).filter
      (fun it => SearchKey.leb (succKey la.key) it.key) = [] := by
    refine List.filter_eq_nil_iff.mpr ?_
    intro x hx
    have hx_tree : x ∈ tree := hl_sub.subset ((List.take_sublist _ _).subset hx)
    have hx_valid := (hwf.2 x hx_tree).1
    rw [← scanCall_eq_take] at hx
    have := hA x hx
    rw [SearchKey.leb_iff_idx hsucc_valid hx_valid]
    omega
  have hself : ((scanUnbounded tree start).drop budget).filter
      (fun it => SearchKey.leb (succKey la.key) it.key) =
      (scanUnbounded tree start).drop budget := by
    refine List.filter_eq_self.mpr ?_
    intro x hx
    have hx_tree : x ∈ tree := hl_sub.subset ((List.drop_sublist _ _).subset hx)
    have hx_valid := (hwf.2 x hx_tree).1
    have := hB x hx
    rw [SearchKey.leb_iff_idx hsucc_valid hx_valid]
    omega
  rw [hnil, hself, List.nil_append]

theorem cursorScan_eq_scanUnbounded (tree : List RawItem) (hwf : TreeWF tree)
    (budget : Nat) (hb : 0 < budget) :
    ∀ (fuel : Nat) (start : SearchKey), start.Valid →
      (scanUnbounded tree start).length ≤ fuel * budget →
      cursorScan tree budget fuel start = scanUnbounded tree start := by
  intro fuel
  induction fuel with
  | zero =>
    intro start _ hlen
    simp only [Nat.zero_mul, Nat.le_zero] at hlen
    rw [cursorScan, List.eq_nil_of_length_eq_zero hlen]
  | succ fuel ih =>
    intro start hstart hlen
    rw [cursorScan]
    cases hla : (scanCall tree start budget).getLast? with
    | none =>
      have hchunk : scanCall tree start budget = [] := List.getLast?_eq_none_iff.mp hla
      rw [scanCall_eq_take] at hchunk
      have hl : scanUnbounded tree start = [] :=
        eq_nil_of_take_eq_nil (Nat.pos_iff_ne_zero.mp hb) hchunk
      simp [hl]
    | some la =>
      simp only
      have hla_mem_tree : la ∈ tree := by
        have h1 : la ∈ scanCall tree start budget := List.mem_of_mem_getLast? hla
        rw [scanCall_eq_take] at h1
        exact (List.filter_sublist tree).subset ((List.take_sublist _ _).subset h1)
      have hsv : (succKey la.key).Valid := succKey_valid (hwf.2 la hla_mem_tree).1
      have hdrop : scanUnbounded tree (succKey la.key) =
          (scanUnbounded tree start).drop budget :=
        scanUnbounded_succKey tree hwf start hstart budget la hla
      have hrec : cursorScan tree budget fuel (succKey la.key) =
          scanUnbounded tree (succKey la.key) := by
        refine ih _ hsv ?_
        rw [hdrop, List.length_drop]
        have : (scanUnbounded tree start).length ≤ fuel * budget + budget := by
          simpa [Nat.succ_mul] using hlen
        omega
      rw [hrec, hdrop, scanCall_eq_take, List.take_append_drop]

/-- Decoded root descriptor: the subvolume's own attributes. -/
structure RootRecord where
  id : Nat
  generation : Nat
  flags : Nat
  bytesUsed : Nat
deriving DecidableEq

/-- Decoded parent-backreference record. -/
structure BackrefRecord where
  childID : Nat
  parentID : Nat
  dirInode : Nat
  seq : Nat
  name : List Nat
deriving DecidableEq

/-- Decoded UUID-tree record: a 16-byte UUID (held in the key's object id
and offset halves) mapped to a subvolume id. -/
structure UUIDRecord where
  uuidHi : Nat
  uuidLo : Nat
  subvolID : Nat
deriving DecidableEq

inductive DecodedRecord where
  | root (r : RootRecord)
  | backref (b : BackrefRecord)
  | uuidRec (u : UUIDRecord)
  | unrecognized
deriving DecidableEq

inductive DecodeError where
  /-- A payload shorter than its declared type's minimum size, carrying
  the offending key. -/
  | corrupt (key : SearchKey)
  /-- A field read past the end of the payload: models an out-of-bounds
  read, which the decoder must never perform. -/
  | outOfBounds
deriving DecidableEq

/-- Read `n` bytes little-endian starting at byte `off`; `none` when the
read would go past the end of the payload. -/
def readLE (d : List Nat) (off : Nat) : Nat → Option Nat
  | 0 => some 0
  | n + 1 =>
    match d.get? off, readLE d (off + 1) n with
    | some b, some rest => some (b + 256 * rest)
    | _, _ => none

theorem readLE_some (d : List Nat) :
    ∀ (n off : Nat), off + n ≤ d.length → ∃ v, readLE d off n = some v := by
  intro n
  induction n with
  | zero => intro off _; exact ⟨0, rfl⟩
  | succ n ih =>
    intro off h
    have hoff : off < d.length := by omega
    have hb : d.get? off = some (d.get ⟨off, hoff⟩) := List.get?_eq_get hoff
    obtain ⟨rest, hrest⟩ := ih (off + 1) (by omega)
    exact ⟨_, by rw [readLE, hb, hrest]⟩

/-- Item type tag of a root descriptor item. -/
def rootItemType : Nat := 132

/-- Item type tag of a parent-backreference item. -/
def rootBackrefType : Nat := 144

/-- Item type tag of a subvolume-UUID item. -/
def uuidKeyType : Nat := 251

/-- Modelled from the spec: the minimum payload size required by each
known item type (a payload shorter than this is a corrupt record); types
outside the three known kinds impose no minimum. -/
def minSize (t : Nat) : Nat :=
  if t = rootItemType then 439
  else if t = rootBackrefType then 18
  else if t = uuidKeyType then 8
  else 0

/-- Modelled from the spec: the record decoder (not under `src/`).
Dispatches purely on the item's declared type tag; validates the payload
length against the type's minimum size before reading any fixed-offset
little-endian field; the name of a backref is raw bytes bounded by the
item size; a short payload is a `corrupt` failure carrying the offending
key; any unknown type decodes to `unrecognized`. -/
def decode (it : RawItem) : Except DecodeError DecodedRecord :=
  if it.key.itemType = rootItemType then
    if it.data.length < minSize rootItemType then .error (.corrupt it.key)
    else
      match readLE it.data 160 8, readLE it.data 192 8, readLE it.data 208 8 with
      | some gen, some used, some fl =>
        .ok (.root { id := it.key.objectid, generation := gen,
                     flags := fl, bytesUsed := used })
      | _, _, _ => .error .outOfBounds
  else if it.key.itemType = rootBackrefType then
    if it.data.length < minSize rootBackrefType then .error (.corrupt it.key)
    else
      match readLE it.data 0 8, readLE it.data 8 8, readLE it.data 16 2 with
      | some dirid, some sq, some nameLen =>
        if 18 + nameLen ≤ it.data.length then
          .ok (.backref { childID := it.key.objectid, parentID := it.key.offset,
                          dirInode := dirid, seq := sq,
                          name := (it.data.drop 18).take nameLen })
        else .error (.corrupt it.key)
      | _, _, _ => .error .outOfBounds
  else if it.key.itemType = uuidKeyType then
    if it.data.length < minSize uuidKeyType then .error (.corrupt it.key)
    else
      match readLE it.data 0 8 with
      | some sub =>
        .ok (.uuidRec { uuidHi := it.key.objectid, uuidLo := it.key.offset,
                        subvolID := sub })
      | _ => .error .outOfBounds
  else .ok .unrecognized

/-- Accumulator for one subvolume id: the latest root descriptor seen and
every backreference record seen (all are retained; the resolver picks). -/
structure PartialSubvolume where
  root : Option RootRecord
  backrefs : List BackrefRecord
deriving DecidableEq

def emptyAccum : PartialSubvolume := ⟨none, []⟩

/-- Update the entry for `id` in the association-list mapping, inserting a
fresh accumulator when absent. -/
def updateAssoc (m : List (Nat × PartialSubvolume)) (id : Nat)
    (f : PartialSubvolume → PartialSubvolume) : List (Nat × PartialSubvolume) :=
  match m with
  | [] => [(id, f emptyAccum)]
  | (k, v) :: rest =>
    if k = id then (k, f v) :: rest else (k, v) :: updateAssoc rest id f

/-- Modelled from the spec: fold one raw item into the mapping — the
latest root record wins, backrefs accumulate, UUID records and
unrecognized items do not contribute, a corrupt record aborts the
build. -/
def buildStep (m : List (Nat × PartialSubvolume)) (it : RawItem) :
    Except DecodeError (List (Nat × PartialSubvolume)) :=
  match decode it with
  | .error e => .error e
  | .ok (.root r) => .ok (updateAssoc m r.id fun p => { p with root := some r })
  | .ok (.backref b) =>
    .ok (updateAssoc m b.childID fun p => { p with backrefs := p.backrefs ++ [b] })
  | .ok (.uuidRec _) => .ok m
  | .ok .unrecognized => .ok m

/-- Modelled from the spec: the hierarchy builder (not under `src/`) —
folds the decoded records of a scan into a fresh mapping from subvolume id
to its accumulator. -/
def build (items : List RawItem) : Except DecodeError (List (Nat × PartialSubvolume)) :=
  items.foldlM buildStep []

/-- Reflexive lexicographic order on the `(parent id, directory inode,
sequence number)` triple of a backref. -/
def brLeb (a b : BackrefRecord) : Bool :=
  decide (a.parentID < b.parentID) ||
    (decide (a.parentID = b.parentID) &&
      (decide (a.dirInode < b.dirInode) ||
        (decide (a.dirInode = b.dirInode) && decide (a.seq ≤ b.seq))))

/-- Running minimum of backrefs under `brLeb`, seeded with `x`. -/
def brMin (x : BackrefRecord) (xs : List BackrefRecord) : BackrefRecord :=
  xs.foldl (fun acc y => if brLeb acc y then acc else y) x

/-- Modelled from the spec: the resolver's deterministic tie-break policy
— select the backref with the lowest `(parent id, directory inode,
sequence number)` tuple. -/
def selectBackref : List BackrefRecord → Option BackrefRecord
  | [] => none
  | x :: xs => some (brMin x xs)

/-- The well-known id of the filesystem's top-level subvolume. -/
def topLevelID : Nat := 5

def lookupAssoc (m : List (Nat × PartialSubvolume)) (id : Nat) :
    Option PartialSubvolume :=
  match m with
  | [] => none
  | (k, v) :: rest => if k = id then some v else lookupAssoc rest id

/-- One parent hop from `id`: its entry's selected backref gives the
parent id and the name under which `id` appears there; `none` when the id
is missing from the mapping or has no backref. -/
def parentLink (m : List (Nat × PartialSubvolume)) (id : Nat) :
    Option (Nat × List Nat) :=
  match lookupAssoc m id with
  | none => none
  | some p =>
    match selectBackref p.backrefs with
    | none => none
    | some b => some (b.parentID, b.name)

/-- Join path segments with the `/` separator byte (0x2f). -/
def joinSegs : List (List Nat) → List Nat
  | [] => []
  | [s] => s
  | s :: rest => s ++ 47 :: joinSegs rest

/-- Modelled from the spec: the bounded parent walk. Returns the resolved
path (`none` is Unresolvable) together with the number of parent hops
taken; stops successfully at the top-level id, and gives up when a parent
is missing or the hop budget `fuel` runs out. -/
def resolveGo (m : List (Nat × PartialSubvolume)) :
    Nat → Nat → List (List Nat) → Option (List Nat) × Nat
  | 0, _, _ => (none, 0)
  | fuel + 1, id, acc =>
    if id = topLevelID then (some (joinSegs acc), 0)
    else
      match parentLink m id with
      | none => (none, 0)
      | some (p, nm) =>
        let r := resolveGo m fuel p (nm :: acc)
        (r.1, r.2 + 1)

/-- Modelled from the spec: `resolvePath` — walk parent links with a hop
budget of the number of known subvolumes plus one. -/
def resolvePath (m : List (Nat × PartialSubvolume)) (id : Nat) :
    Option (List Nat) :=
  (resolveGo m (m.length + 1) id []).1

/-- The number of parent hops `resolvePath` performs. -/
def resolveHops (m : List (Nat × PartialSubvolume)) (id : Nat) : Nat :=
  (resolveGo m (m.length + 1) id []).2

/-- The parent chain from `id` reaches the top-level id in exactly `k`
present hops. -/
def reachesTop (m : List (Nat × PartialSubvolume)) : Nat → Nat → Bool
  | 0, id => decide (id = topLevelID)
  | k + 1, id =>
    !decide (id = topLevelID) &&
      match parentLink m id with
      | none => false
      | some (p, _) => reachesTop m k p

/-- Modelled from the spec: the resolver output for one subvolume (the Go
`SubvolInfo` structure itself is not under `src/`): id, UUIDs, parent id,
name, generation, flags and the optional resolved path. -/
structure SubvolInfo where
  rootID : Nat
  uuid : List Nat
  receivedUUID : List Nat
  parentID : Nat
  name : List Nat
  generation : Nat
  flags : Nat
  path : Option (List Nat)
deriving DecidableEq

/-- Error domain of the facade operations. -/
inductive FSError where
  | notFound
  | errno (code : Nat)
deriving DecidableEq

/-- `FS.ListSubvolumes` from the source: on success of the
`listSubVolumes` collaborator it appends the values of the returned map to
a fresh slice, in the map's iteration order, and returns that slice.
`listResult` is the collaborator's result, a Go map given as its entry
list in iteration order (Go map iteration order is unspecified). -/
def ListSubvolumes (listResult : Except FSError (List (Nat × SubvolInfo))) :
    Except FSError (List SubvolInfo) :=
  match listResult with
  | .error e => .error e
  | .ok m => .ok (m.map Prod.snd)

/-- The abstract collaborators of the UUID resolvers: the two keyed
UUID-tree lookups and the by-root-id search (the latter is the operation
that issues tree scans). -/
structure SubvolOracle where
  lookupUUIDSubvolItem : List Nat → Except FSError Nat
  lookupUUIDReceivedSubvolItem : List Nat → Except FSError Nat
  subvolSearchByRootID : Nat → Except FSError SubvolInfo

/-- `FS.SubvolumeByUUID` from the source, instrumented with the number of
by-root-id searches it issues: look the UUID up in the UUID tree; on
error, return the error unchanged; on success, resolve the id via the
search. -/
def SubvolumeByUUID (o : SubvolOracle) (uuid : List Nat) :
    Except FSError SubvolInfo × Nat :=
  match o.lookupUUIDSubvolItem uuid with
  | .error e => (.error e, 0)
  | .ok id => (o.subvolSearchByRootID id, 1)

/-- `FS.SubvolumeByReceivedUUID` from the source: the same against the
received-UUID namespace. -/
def SubvolumeByReceivedUUID (o : SubvolOracle) (uuid : List Nat) :
    Except FSError SubvolInfo × Nat :=
  match o.lookupUUIDReceivedSubvolItem uuid with
  | .error e => (.error e, 0)
  | .ok id => (o.subvolSearchByRootID id, 1)

/-- `FS.ScrubCancel` from the source: it issues the scrub-cancel ioctl on
the filesystem handle and never uses its `dev` argument.  `cancelFS` is
the collaborator's response to cancelling on this handle (`none` =
success). -/
def ScrubCancel (cancelFS : Option FSError) (dev : Nat) : Option FSError :=
  cancelFS

/-- The per-device loop of the CLI `ScrubCancelCmd`: invoke `ScrubCancel`
once per listed device id, stopping at the first error. -/
def cancelLoop (cancelFS : Option FSError) : List Nat → Option FSError
  | [] => none
  | i :: rest =>
    match ScrubCancel cancelFS i with
    | some e => some e
    | none => cancelLoop cancelFS rest

/-- `ScrubCancelCmd` from the CLI source: iterate the device ids `1` to
`maxID` and cancel on each. -/
def scrubCancelCmd (cancelFS : Option FSError) (maxID : Nat) : Option FSError :=
  cancelLoop cancelFS (List.range' 1 maxID)

/-- The reply the get-dev-stats ioctl writes back: the contents of the
fixed-capacity values array and the reported number of items. -/
structure DevStatsReply where
  values : List Nat
  nrItems : Nat
deriving DecidableEq

/-- The `DevStats` structure from the source. -/
structure DevStats where
  WriteErrs : Nat
  ReadErrs : Nat
  FlushErrs : Nat
  CorruptionErrs : Nat
  GenerationErrs : Nat
  Unknown : List Nat
deriving DecidableEq

/-- Outcome of a dev-stats call: ioctl error, runtime fault from an
out-of-range slice expression, or the decoded stats. -/
inductive StatsOutcome where
  | err (e : FSError)
  | sliceOutOfRange
  | ok (s : DevStats)
deriving DecidableEq

/-- Two's-complement reinterpretation of a 64-bit unsigned value as a
signed 64-bit integer: what Go's `int(x)` conversion performs on a
`uint64` on a 64-bit platform (values at or above `2^63` wrap to
negatives). -/
def u64ToInt (n : Nat) : Int :=
  if n < 2 ^ 63 then (n : Int) else (n : Int) - 2 ^ 64

/-- The post-ioctl field extraction of `FS.GetDevStatsWithFlags`: the five
named counters from `values[0]` through `values[4]`; then the source
guards the slice with `int(arg.nr_items) > i` (i = 5) — a wrapping
`uint64`-to-`int` conversion — and under that guard sets
`Unknown = values[5:nr_items]`, using the unconverted `nr_items` as the
slice upper bound.  `none` models the Go runtime fault when that bound
exceeds the capacity of the values array; a guard false (including a
reported `nr_items ≥ 2^63`, negative after conversion) leaves `Unknown`
nil. -/
def extractDevStats (values : List Nat) (nrItems : Nat) : Option DevStats :=
  if h5 : 5 ≤ values.length then
    let w := values.get ⟨0, by omega⟩
    let r := values.get ⟨1, by omega⟩
    let fl := values.get ⟨2, by omega⟩
    let c := values.get ⟨3, by omega⟩
    let g := values.get ⟨4, by omega⟩
    if 5 < u64ToInt nrItems then
      if nrItems ≤ values.length then
        some ⟨w, r, fl, c, g, (values.take nrItems).drop 5⟩
      else none
    else some ⟨w, r, fl, c, g, []⟩
  else none

/-- `FS.GetDevStatsWithFlags` from the source: issue the get-dev-stats
ioctl for the device with the given flags; on error return it, otherwise
extract the counters from the reply.  `ioc` is the kernel's reply per
`(devid, flags)` request. -/
def GetDevStatsWithFlags (ioc : Nat → Nat → Except FSError DevStatsReply)
    (id flags : Nat) : StatsOutcome :=
  match ioc id flags with
  | .error e => .err e
  | .ok reply =>
    match extractDevStats reply.values reply.nrItems with
    | none => .sliceOutOfRange
    | some s => .ok s

/-- `FS.GetDevStats` from the source: delegates with `flags = 0`. -/
def GetDevStats (ioc : Nat → Nat → Except FSError DevStatsReply) (id : Nat) :
    StatsOutcome :=
  GetDevStatsWithFlags ioc id 0

/-! ## Claim theorems -/

/-- C2: For every tree state and every positive buffer budget, the cursor
computes each next start key as one past the last key returned (offset +
1, carrying into the item type on offset overflow and into the object id
on type overflow — `succKey`), so that concatenating the items of the
bounded scan calls equals the item sequence of a single unbounded call, in
the same order, with no duplicates and no gaps. -/
theorem cursor_bounded_scans_eq_unbounded (tree : List RawItem)
    (start : SearchKey) (budget fuel : Nat) (hwf : TreeWF tree)
    (hstart : start.Valid) (hb : 0 < budget)
    (hfuel : tree.length ≤ fuel * budget) :
    cursorScan tree budget fuel start = scanUnbounded tree start :=
  cursorScan_eq_scanUnbounded tree hwf budget hb fuel start hstart
    (Nat.le_trans (List.length_filter_le _ _) hfuel)

def wkey1 : SearchKey := ⟨256, 132, 0⟩
def wkey2 : SearchKey := ⟨256, 144, 5⟩
def wkey3 : SearchKey := ⟨257, 132, 0⟩
def wtree : List RawItem := [⟨wkey1, 7, [1]⟩, ⟨wkey2, 7, [2]⟩, ⟨wkey3, 7, [3]⟩]
def wstart : SearchKey := ⟨0, 0, 0⟩

theorem cursor_bounded_scans_eq_unbounded_witness :
    (TreeWF wtree ∧ wstart.Valid ∧ 0 < 1 ∧ wtree.length ≤ 3 * 1) ∧
      cursorScan wtree 1 3 wstart = scanUnbounded wtree wstart :=
  ⟨⟨by decide, by decide, by decide, by decide⟩,
    cursor_bounded_scans_eq_unbounded wtree wstart 1 3 (by decide) (by decide)
      (by decide) (by decide)⟩

/-- C9: For every device id, `FS.GetDevStats id` returns exactly the same
result as `FS.GetDevStatsWithFlags id 0`; the source delegates directly. -/
theorem getDevStats_eq_withFlags_zero
    (ioc : Nat → Nat → Except FSError DevStatsReply) (id : Nat) :
    GetDevStats ioc id = GetDevStatsWithFlags ioc id 0 := rfl

theorem cancelLoop_none : ∀ l : List Nat, cancelLoop none l = none := by
  intro l
  induction l with
  | nil => rfl
  | cons i rest ih => simp [cancelLoop, ScrubCancel, ih]

/-- C8: `FS.ScrubCancel` ignores its `dev` argument — any two device ids
produce the identical operation, the cancel issued against the filesystem
handle as a whole — and the CLI loop that invokes it once per device id
collapses to that single whole-filesystem cancel. -/
theorem scrubCancel_ignores_dev (cancelFS : Option FSError) (d1 d2 : Nat) :
    ScrubCancel cancelFS d1 = ScrubCancel cancelFS d2 ∧
      ScrubCancel cancelFS d1 = cancelFS ∧
      ∀ maxID, 0 < maxID → scrubCancelCmd cancelFS maxID = cancelFS := by
  refine ⟨rfl, rfl, ?_⟩
  intro maxID hpos
  cases maxID with
  | zero => exact absurd hpos (by omega)
  | succ n =>
    rw [scrubCancelCmd]
    cases hc : cancelFS with
    | some e => simp [List.range', cancelLoop, ScrubCancel]
    | none =>
      exact cancelLoop_none _

theorem scrubCancel_ignores_dev_witness :
    0 < 3 ∧ scrubCancelCmd (some (.errno 5)) 3 = some (.errno 5) :=
  ⟨by decide, (scrubCancel_ignores_dev (some (.errno 5)) 1 2).2.2 3 (by decide)⟩

/-- C3: `FS.SubvolumeByUUID` (and `FS.SubvolumeByReceivedUUID` against the
received-UUID namespace) first performs the direct keyed UUID-tree lookup
to obtain a subvolume id, and only on its success resolves that id via the
by-id search; when the lookup fails, the error is returned unchanged and
no by-id search (the operation that scans the tree) is issued. -/
theorem subvolumeByUUID_lookup_first (o : SubvolOracle) (uuid : List Nat) :
    (∀ e, o.lookupUUIDSubvolItem uuid = .error e →
        SubvolumeByUUID o uuid = (.error e, 0)) ∧
      (∀ id, o.lookupUUIDSubvolItem uuid = .ok id →
        SubvolumeByUUID o uuid = (o.subvolSearchByRootID id, 1)) ∧
      (∀ e, o.lookupUUIDReceivedSubvolItem uuid = .error e →
        SubvolumeByReceivedUUID o uuid = (.error e, 0)) ∧
      (∀ id, o.lookupUUIDReceivedSubvolItem uuid = .ok id →
        SubvolumeByReceivedUUID o uuid = (o.subvolSearchByRootID id, 1)) := by
  refine ⟨?_, ?_, ?_, ?_⟩ <;> intro x hx <;>
    simp [SubvolumeByUUID, SubvolumeByReceivedUUID, hx]

def woracle : SubvolOracle where
  lookupUUIDSubvolItem := fun _ => .error .notFound
  lookupUUIDReceivedSubvolItem := fun _ => .error .notFound
  subvolSearchByRootID := fun _ => .error .notFound

theorem subvolumeByUUID_lookup_first_witness :
    woracle.lookupUUIDSubvolItem [0] = .error .notFound ∧
      SubvolumeByUUID woracle [0] = (.error .notFound, 0) :=
  ⟨rfl, (subvolumeByUUID_lookup_first woracle [0]).1 .notFound rfl⟩

def csA : SubvolInfo :=
  { rootID := 257, uuid := [], receivedUUID := [], parentID := 5,
    name := [97], generation := 1, flags := 0, path := none }

def csB : SubvolInfo :=
  { rootID := 256, uuid := [], receivedUUID := [], parentID := 5,
    name := [98], generation := 1, flags := 0, path := none }

/-- C1 counterexample: a well-formed map of surviving subvolumes (distinct
keys, each key its entry's id) whose iteration order — unspecified for a
Go map — puts id 257 before id 256; `FS.ListSubvolumes` returns the
entries in that order, so the result is not ordered by ascending
subvolume id. -/
theorem listSubvolumes_not_sorted_counterexample :
    ([(257, csA), (256, csB)].map Prod.fst).Nodup ∧
      (∀ p ∈ [(257, csA), (256, csB)], p.2.rootID = p.1) ∧
      ListSubvolumes (.ok [(257, csA), (256, csB)]) = .ok [csA, csB] ∧
      ¬ [csA, csB].Pairwise (fun x y => x.rootID < y.rootID) :=
  ⟨by decide, by decide, rfl, by decide⟩

/-- C1 (amended): for every filesystem state and predicate,
`FS.ListSubvolumes` returns exactly the surviving `SubvolInfo` entries —
a permutation of them, in the returned map's unspecified iteration order —
but not necessarily ordered by ascending subvolume id. -/
theorem listSubvolumes_returns_surviving (subvols : List (Nat × SubvolInfo))
    (pred : SubvolInfo → Bool) (m : List (Nat × SubvolInfo))
    (hm : m.Perm (subvols.filter fun p => pred p.2)) :
    ∃ out, ListSubvolumes (.ok m) = .ok out ∧
      out.Perm ((subvols.filter fun p => pred p.2).map Prod.snd) :=
  ⟨m.map Prod.snd, rfl, hm.map Prod.snd⟩

theorem listSubvolumes_returns_surviving_witness :
    ([(257, csA), (256, csB)] : List (Nat × SubvolInfo)).Perm
        ([(256, csB), (257, csA)].filter fun p => (fun _ => true) p.2) ∧
      ∃ out, ListSubvolumes (.ok [(257, csA), (256, csB)]) = .ok out ∧
        out.Perm ((([(256, csB), (257, csA)] : List (Nat × SubvolInfo)).filter
          fun p => (fun _ => true) p.2).map Prod.snd) :=
  ⟨by decide,
    listSubvolumes_returns_surviving [(256, csB), (257, csA)] (fun _ => true)
      [(257, csA), (256, csB)] (by decide)⟩

/-- C4: For an unchanged tree state and any two positive buffer sizes,
building the hierarchy mapping from the buffer-b1 scan yields a mapping
identical to building it from the buffer-b2 scan: buffer-size-dependent
pagination is invisible in the result. -/
theorem build_pagination_invisible (tree : List RawItem) (start : SearchKey)
    (b1 b2 fuel1 fuel2 : Nat) (hwf : TreeWF tree) (hstart : start.Valid)
    (hb1 : 0 < b1) (hb2 : 0 < b2)
    (hf1 : tree.length ≤ fuel1 * b1) (hf2 : tree.length ≤ fuel2 * b2) :
    build (cursorScan tree b1 fuel1 start) =
      build (cursorScan tree b2 fuel2 start) := by
  rw [cursorScan_eq_scanUnbounded tree hwf b1 hb1 fuel1 start hstart
      (Nat.le_trans (List.length_filter_le _ _) hf1),
    cursorScan_eq_scanUnbounded tree hwf b2 hb2 fuel2 start hstart
      (Nat.le_trans (List.length_filter_le _ _) hf2)]

theorem build_pagination_invisible_witness :
    (TreeWF wtree ∧ wstart.Valid ∧ 0 < 1 ∧ 0 < 2 ∧
        wtree.length ≤ 3 * 1 ∧ wtree.length ≤ 2 * 2) ∧
      build (cursorScan wtree 1 3 wstart) = build (cursorScan wtree 2 2 wstart) :=
  ⟨⟨by decide, by decide, by decide, by decide, by decide, by decide⟩,
    build_pagination_invisible wtree wstart 1 2 3 2 (by decide) (by decide)
      (by decide) (by decide) (by decide) (by decide)⟩

/-- C5: For every raw item whose payload is shorter than the minimum
required size for its declared item type, decode returns a corrupt error
carrying the offending key; and decode never performs an out-of-bounds
read (it is a total function that never returns the `outOfBounds`
marker). -/
theorem decode_short_payload_corrupt (it : RawItem) :
    (it.data.length < minSize it.key.itemType →
        decode it = .error (.corrupt it.key)) ∧
      decode it ≠ .error .outOfBounds := by
  have hroot : minSize rootItemType = 439 := rfl
  have hbr : minSize rootBackrefType = 18 := rfl
  have huu : minSize uuidKeyType = 8 := rfl
  constructor
  · intro hshort
    unfold decode
    by_cases h1 : it.key.itemType = rootItemType
    · rw [h1] at hshort
      rw [if_pos h1, if_pos hshort]
    · rw [if_neg h1]
      by_cases h2 : it.key.itemType = rootBackrefType
      · rw [h2] at hshort
        rw [if_pos h2, if_pos hshort]
      · rw [if_neg h2]
        by_cases h3 : it.key.itemType = uuidKeyType
        · rw [h3] at hshort
          rw [if_pos h3, if_pos hshort]
        · exfalso
          rw [minSize, if_neg h1, if_neg h2, if_neg h3] at hshort
          omega
  · unfold decode
    by_cases h1 : it.key.itemType = rootItemType
    · rw [if_pos h1]
      by_cases hlen : it.data.length < minSize rootItemType
      · rw [if_pos hlen]; intro h; cases h
      · rw [if_neg hlen]
        rw [hroot] at hlen
        obtain ⟨g, hg⟩ := readLE_some it.data 8 160 (by omega)
        obtain ⟨u, hu⟩ := readLE_some it.data 8 192 (by omega)
        obtain ⟨fl, hfl⟩ := readLE_some it.data 8 208 (by omega)
        rw [hg, hu, hfl]
        intro h; cases h
    · rw [if_neg h1]
      by_cases h2 : it.key.itemType = rootBackrefType
      · rw [if_pos h2]
        by_cases hlen : it.data.length < minSize rootBackrefType
        · rw [if_pos hlen]; intro h; cases h
        · rw [if_neg hlen]
          rw [hbr] at hlen
          obtain ⟨d0, hd0⟩ := readLE_some it.data 8 0 (by omega)
          obtain ⟨sq, hsq⟩ := readLE_some it.data 8 8 (by omega)
          obtain ⟨nl, hnl⟩ := readLE_some it.data 2 16 (by omega)
          rw [hd0, hsq, hnl]
          by_cases hname : 18 + nl ≤ it.data.length <;> simp [hname]
      · rw [if_neg h2]
        by_cases h3 : it.key.itemType = uuidKeyType
        · rw [if_pos h3]
          by_cases hlen : it.data.length < minSize uuidKeyType
          · rw [if_pos hlen]; intro h; cases h
          · rw [if_neg hlen]
            rw [huu] at hlen
            obtain ⟨sub, hsub⟩ := readLE_some it.data 8 0 (by omega)
            rw [hsub]
            intro h; cases h
        · rw [if_neg h3]
          intro h; cases h

theorem decode_short_payload_corrupt_witness :
    (⟨⟨300, 144, 5⟩, 1, List.replicate 17 0⟩ : RawItem).data.length <
        minSize (⟨300, 144, 5⟩ : SearchKey).itemType ∧
      decode ⟨⟨300, 144, 5⟩, 1, List.replicate 17 0⟩ =
        .error (.corrupt ⟨300, 144, 5⟩) :=
  ⟨by decide,
    (decode_short_payload_corrupt ⟨⟨300, 144, 5⟩, 1, List.replicate 17 0⟩).1
      (by decide)⟩

theorem brLeb_refl (a : BackrefRecord) : brLeb a a = true := by
  simp [brLeb]

theorem brLeb_total (a b : BackrefRecord) :
    brLeb a b = true ∨ brLeb b a = true := by
  simp [brLeb]; omega

theorem brLeb_trans {a b c : BackrefRecord} (h1 : brLeb a b = true)
    (h2 : brLeb b c = true) : brLeb a c = true := by
  simp [brLeb] at *; omega

theorem brMin_spec : ∀ (xs : List BackrefRecord) (x : BackrefRecord),
    brMin x xs ∈ x :: xs ∧ ∀ c ∈ x :: xs, brLeb (brMin x xs) c = true := by
  intro xs
  induction xs with
  | nil =>
    intro x
    refine ⟨List.mem_singleton_self x, ?_⟩
    intro c hc
    rw [List.mem_singleton] at hc
    subst hc
    exact brLeb_refl c
  | cons y ys ih =>
    intro x
    have hstep : brMin x (y :: ys) = brMin (if brLeb x y then x else y) ys := by
      simp [brMin, List.foldl_cons]
    obtain ⟨hmem, hmin⟩ := ih (if brLeb x y then x else y)
    have hmem2 : brMin x (y :: ys) ∈ x :: y :: ys := by
      rw [hstep]
      by_cases hxy : brLeb x y = true
      · rw [if_pos hxy] at hmem ⊢
        rcases List.mem_cons.mp hmem with h | h
        · rw [h]; exact List.mem_cons_self _ _
        · exact List.mem_cons_of_mem _ (List.mem_cons_of_mem _ h)
      · rw [if_neg hxy] at hmem ⊢
        rcases List.mem_cons.mp hmem with h | h
        · rw [h]; exact List.mem_cons_of_mem _ (List.mem_cons_self _ _)
        · exact List.mem_cons_of_mem _ (List.mem_cons_of_mem _ h)
    refine ⟨hmem2, ?_⟩
    intro c hc
    rw [hstep]
    by_cases hxy : brLeb x y = true
    · rw [if_pos hxy] at hmin ⊢
      rcases List.mem_cons.mp hc with rfl | hc2
      · exact hmin c (List.mem_cons_self _ _)
      · rcases List.mem_cons.mp hc2 with rfl | hc3
        · exact brLeb_trans (hmin x (List.mem_cons_self _ _)) hxy
        · exact hmin c (List.mem_cons_of_mem _ hc3)
    · rw [if_neg hxy] at hmin ⊢
      rcases List.mem_cons.mp hc with rfl | hc2
      · rcases brLeb_total c y with h | h
        · exact absurd h hxy
        · exact brLeb_trans (hmin y (List.mem_cons_self _ _)) h
      · rcases List.mem_cons.mp hc2 with rfl | hc3
        · exact hmin c (List.mem_cons_self _ _)
        · exact hmin c (List.mem_cons_of_mem _ hc3)

/-- C7: For every subvolume with more than one backref record, the
resolver selects a backref that is in the list and whose `(parent id,
directory inode, sequence number)` tuple is lowest (`brLeb`-below every
entry); the selection is a pure function of the list, hence identical
across repeated calls on the same hierarchy. -/
theorem selectBackref_lowest_tuple (l : List BackrefRecord)
    (h : 1 < l.length) :
    ∃ b, selectBackref l = some b ∧ b ∈ l ∧ ∀ c ∈ l, brLeb b c = true := by
  cases l with
  | nil => simp at h
  | cons x xs =>
    obtain ⟨hmem, hmin⟩ := brMin_spec xs x
    exact ⟨brMin x xs, rfl, hmem, hmin⟩

def br1 : BackrefRecord := ⟨300, 5, 10, 1, [97]⟩
def br2 : BackrefRecord := ⟨300, 5, 9, 2, [98]⟩

theorem selectBackref_lowest_tuple_witness :
    1 < [br1, br2].length ∧
      ∃ b, selectBackref [br1, br2] = some b ∧ b ∈ [br1, br2] ∧
        ∀ c ∈ [br1, br2], brLeb b c = true :=
  ⟨by decide, selectBackref_lowest_tuple [br1, br2] (by decide)⟩

/-- The spec's scenario: of the two backrefs for id 300 with tuples
`(5, 10, 1)` and `(5, 9, 2)`, the lower tuple `(5, 9, 2)` is selected. -/
theorem selectBackref_picks_lower_tuple : selectBackref [br1, br2] = some br2 := by
  decide

theorem resolveGo_hops_le (m : List (Nat × PartialSubvolume)) :
    ∀ (fuel id : Nat) (acc : List (List Nat)),
      (resolveGo m fuel id acc).2 ≤ fuel := by
  intro fuel
  induction fuel with
  | zero => intro id acc; simp [resolveGo]
  | succ fuel ih =>
    intro id acc
    rw [resolveGo]
    by_cases hid : id = topLevelID
    · simp [hid]
    · rw [if_neg hid]
      cases hpl : parentLink m id with
      | none => simp
      | some pr =>
        obtain ⟨p, nm⟩ := pr
        simpa using ih p (nm :: acc)

theorem resolveGo_none_of_not_reaches (m : List (Nat × PartialSubvolume)) :
    ∀ (fuel id : Nat) (acc : List (List Nat)),
      (∀ k, k < fuel → reachesTop m k id = false) →
      (resolveGo m fuel id acc).1 = none := by
  intro fuel
  induction fuel with
  | zero => intro id acc _; rfl
  | succ fuel ih =>
    intro id acc h
    rw [resolveGo]
    by_cases hid : id = topLevelID
    · exfalso
      have h0 := h 0 (Nat.succ_pos fuel)
      rw [reachesTop] at h0
      simp [hid] at h0
    · rw [if_neg hid]
      cases hpl : parentLink m id with
      | none => simp
      | some pr =>
        obtain ⟨p, nm⟩ := pr
        simp only
        refine ih p (nm :: acc) ?_
        intro k hk
        have hk1 := h (k + 1) (Nat.succ_lt_succ hk)
        rw [reachesTop, hpl] at hk1
        simpa [hid] using hk1

/-- C6: For every hierarchy mapping — including one whose parent links
contain a cycle — `resolvePath` performs at most (number of known
subvolumes + 1) parent hops, and returns Unresolvable (`none`) whenever
the parent chain from `id` cannot reach the top-level id within that
bound: in particular when a parent id is missing from the mapping or the
chain cycles. -/
theorem resolvePath_bounded_and_unresolvable
    (m : List (Nat × PartialSubvolume)) (id : Nat) :
    resolveHops m id ≤ m.length + 1 ∧
      ((∀ k, k ≤ m.length → reachesTop m k id = false) →
        resolvePath m id = none) := by
  constructor
  · exact resolveGo_hops_le m (m.length + 1) id []
  · intro h
    exact resolveGo_none_of_not_reaches m (m.length + 1) id []
      (fun k hk => h k (by omega))

def brc1 : BackrefRecord := ⟨10, 11, 1, 1, [99]⟩
def brc2 : BackrefRecord := ⟨11, 10, 1, 1, [100]⟩

/-- A deliberately corrupted mapping whose parent links form the cycle
`10 → 11 → 10`. -/
def cycMap : List (Nat × PartialSubvolume) :=
  [(10, ⟨none, [brc1]⟩), (11, ⟨none, [brc2]⟩)]

theorem resolvePath_bounded_and_unresolvable_witness :
    (∀ k, k ≤ cycMap.length → reachesTop cycMap k 10 = false) ∧
      resolvePath cycMap 10 = none :=
  ⟨by decide, (resolvePath_bounded_and_unresolvable cycMap 10).2 (by decide)⟩

def wiocWrap : Nat → Nat → Except FSError DevStatsReply :=
  fun _ _ => .ok ⟨[1, 2, 3, 4, 5], 2 ^ 63⟩

/-- C10 counterexample: a successful reply reporting `nr_items = 2^63` —
far above the five-slot capacity of the values array — does not make the
slice expression out of range: the source's `int(arg.nr_items) > 5` guard
wraps the `uint64` to a negative `int`, the slice is never evaluated, and
the call succeeds with `Unknown` nil, refuting both the claimed
out-of-range outcome for every `nr_items` above the capacity and the
claimed `Unknown = values[5:nr_items]` for every `nr_items` exceeding
five. -/
theorem getDevStats_wrap_counterexample :
    (5 : Nat) < 2 ^ 63 ∧ ([1, 2, 3, 4, 5] : List Nat).length < 2 ^ 63 ∧
      GetDevStatsWithFlags wiocWrap 1 0 = .ok ⟨1, 2, 3, 4, 5, []⟩ ∧
      GetDevStatsWithFlags wiocWrap 1 0 ≠ .sliceOutOfRange :=
  ⟨by decide, by decide, by decide, by decide⟩

/-- C10 (amended): For every successful ioctl reply in
`FS.GetDevStatsWithFlags`, the five named counters are taken from
`values[0]` through `values[4]` in the order write, read, flush,
corruption, generation; the slice guard compares `int(nr_items)` — the
two's-complement reinterpretation of the reported `nr_items` — so
`Unknown` equals `values[5:nr_items]` when that wrapped value exceeds 5
(equivalently when `5 < nr_items < 2^63`) and is empty otherwise,
including for every reported `nr_items ≥ 2^63`, where the call succeeds
with `Unknown` nil; and when the guard holds, the slice expression stays
in bounds precisely when `nr_items` does not exceed the capacity of the
values array — a larger guard-passing `nr_items` makes it out of
range. -/
theorem getDevStats_field_extraction
    (ioc : Nat → Nat → Except FSError DevStatsReply) (id flags : Nat)
    (reply : DevStatsReply) (hok : ioc id flags = .ok reply)
    (hcap : 5 ≤ reply.values.length) (hu64 : reply.nrItems < 2 ^ 64) :
    (5 < u64ToInt reply.nrItems ↔
        5 < reply.nrItems ∧ reply.nrItems < 2 ^ 63) ∧
      (reply.nrItems ≤ reply.values.length →
        GetDevStatsWithFlags ioc id flags = .ok
          { WriteErrs := reply.values.getD 0 0
            ReadErrs := reply.values.getD 1 0
            FlushErrs := reply.values.getD 2 0
            CorruptionErrs := reply.values.getD 3 0
            GenerationErrs := reply.values.getD 4 0
            Unknown := if 5 < u64ToInt reply.nrItems then
              (reply.values.take reply.nrItems).drop 5 else [] }) ∧
      (5 < u64ToInt reply.nrItems → reply.values.length < reply.nrItems →
        GetDevStatsWithFlags ioc id flags = .sliceOutOfRange) ∧
      (¬ 5 < u64ToInt reply.nrItems →
        GetDevStatsWithFlags ioc id flags = .ok
          { WriteErrs := reply.values.getD 0 0
            ReadErrs := reply.values.getD 1 0
            FlushErrs := reply.values.getD 2 0
            CorruptionErrs := reply.values.getD 3 0
            GenerationErrs := reply.values.getD 4 0
            Unknown := [] }) := by
  have hguard : (5 < u64ToInt reply.nrItems) ↔
      (5 < reply.nrItems ∧ reply.nrItems < 2 ^ 63) := by
    unfold u64ToInt
    split <;> omega
  have hgd : ∀ (i : Nat) (h : i < reply.values.length),
      reply.values[i]?.getD 0 = reply.values.get ⟨i, h⟩ := by
    intro i h
    rw [List.getElem?_eq_getElem h]
    rfl
  have h0 := hgd 0 (by omega)
  have h1 := hgd 1 (by omega)
  have h2 := hgd 2 (by omega)
  have h3 := hgd 3 (by omega)
  have h4 := hgd 4 (by omega)
  refine ⟨hguard, ?_, ?_, ?_⟩
  · intro hle
    have hext : extractDevStats reply.values reply.nrItems = some
        { WriteErrs := reply.values.getD 0 0
          ReadErrs := reply.values.getD 1 0
          FlushErrs := reply.values.getD 2 0
          CorruptionErrs := reply.values.getD 3 0
          GenerationErrs := reply.values.getD 4 0
          Unknown := if 5 < u64ToInt reply.nrItems then
            (reply.values.take reply.nrItems).drop 5 else [] } := by
      unfold extractDevStats
      rw [dif_pos hcap]
      by_cases hg : 5 < u64ToInt reply.nrItems
      · simp [hg, hle, h0, h1, h2, h3, h4]
      · simp [hg, h0, h1, h2, h3, h4]
    simp [GetDevStatsWithFlags, hok, hext]
  · intro hg hgt
    have hext : extractDevStats reply.values reply.nrItems = none := by
      unfold extractDevStats
      rw [dif_pos hcap, if_pos hg, if_neg (by omega)]
    simp [GetDevStatsWithFlags, hok, hext]
  · intro hg
    have hext : extractDevStats reply.values reply.nrItems = some
        { WriteErrs := reply.values.getD 0 0
          ReadErrs := reply.values.getD 1 0
          FlushErrs := reply.values.getD 2 0
          CorruptionErrs := reply.values.getD 3 0
          GenerationErrs := reply.values.getD 4 0
          Unknown := [] } := by
      unfold extractDevStats
      rw [dif_pos hcap, if_neg hg]
      simp [h0, h1, h2, h3, h4]
    simp [GetDevStatsWithFlags, hok, hext]

def wioc : Nat → Nat → Except FSError DevStatsReply :=
  fun _ _ => .ok ⟨[1, 2, 3, 4, 5, 6, 7], 7⟩

theorem getDevStats_field_extraction_witness :
    (7 : Nat) ≤ 7 ∧ GetDevStatsWithFlags wioc 1 0 = .ok ⟨1, 2, 3, 4, 5, [6, 7]⟩ := by
  refine ⟨by decide, ?_⟩
  have h := (getDevStats_field_extraction wioc 1 0 ⟨[1, 2, 3, 4, 5, 6, 7], 7⟩
    rfl (by decide) (by decide)).2.1 (by decide)
  rw [h]
  decide

end Btrfs
